import Mathlib

/-!
Verification of the STAC Browser utility module (`src/utils.js`).

The JavaScript module is a library of stateless pure functions over
JSON-like values (links, filter maps) and URLs.  This file gives a shallow
embedding of the data model and of the functions the claims are about:

* JavaScript values are modelled by the inductive type `JsVal`.  Numbers are
  modelled as integers plus the two non-finite shapes (`NaN`, `±Infinity`);
  floating point as such is not needed by any claim.  A `Date` object is
  modelled as carrying its UTC ISO-8601 representation (the only observation
  the code makes of a date, via `toISOString`).
* URLs are modelled by the structure `Uri`, following the `urijs` library the
  module uses for all URL work: parsing, `absoluteTo` (RFC-3986-style
  resolution), `normalize`, `equals`, and the accessors `protocol`,
  `filename`, `directory`, `suffix`.  The query string is kept in parsed form
  (an association list from key to the list of its values), which is the form
  `urijs` operates on for `setQuery`/`removeQuery`/`equals`; percent-encoding
  of query components is not modelled (claims compare query parameters
  structurally, never their percent-encoded spellings).
* In-place mutation (`mergeDeep`) is modelled by explicit value passing; the
  functions are pure in the embedding.
-/

set_option autoImplicit false

namespace StacBrowser

/-- A JavaScript number: an integer value, `NaN`, or a signed infinity. -/
inductive JsNumber where
  | int (i : Int)
  | nan
  | inf (positive : Bool)
  deriving Repr, DecidableEq

/-- Models `Number.isFinite` on the modelled numbers. -/
def JsNumber.finite : JsNumber → Bool
  | .int _ => true
  | .nan => false
  | .inf _ => false

/-- Models `String(n)` for the modelled numbers. -/
def JsNumber.toStr : JsNumber → String
  | .int i => toString i
  | .nan => "NaN"
  | .inf true => "Infinity"
  | .inf false => "-Infinity"

/-- Truthiness of a number: `0` and `NaN` are falsy. -/
def JsNumber.truthy : JsNumber → Bool
  | .int i => i != 0
  | .nan => false
  | .inf _ => true

/-- A JavaScript value, as far as the utility module observes them.
`vdate iso` is a `Date` object carrying its `toISOString()` rendering. -/
inductive JsVal where
  | vnull
  | vundef
  | vbool (b : Bool)
  | vnum (n : JsNumber)
  | vstr (s : String)
  | vdate (iso : String)
  | varr (xs : List JsVal)
  | vobj (fields : List (String × JsVal))
  deriving Repr, Inhabited

namespace JsVal

/-- JavaScript truthiness. Objects, arrays and dates are always truthy. -/
def truthy : JsVal → Bool
  | vnull => false
  | vundef => false
  | vbool b => b
  | vnum n => n.truthy
  | vstr s => s != ""
  | vdate _ => true
  | varr _ => true
  | vobj _ => true

/-- Models `Utils.isObject`: `typeof x === 'object' && x === Object(x) && !Array.isArray(x)`.
True for plain objects and for `Date` objects, false for arrays, `null` and
all primitives. -/
def isObject : JsVal → Bool
  | vobj _ => true
  | vdate _ => true
  | _ => false

/-- Models `Utils.hasText`: a string with at least one character. -/
def hasText : JsVal → Bool
  | vstr s => s != ""
  | _ => false

/-- Distinct keys of a field list, in first-occurrence order (`Object.keys`). -/
def objKeys : List (String × JsVal) → List String
  | [] => []
  | (k, _) :: rest => if (rest.map Prod.fst).contains k then objKeys rest else k :: objKeys rest

/-- Models `Utils.size`: length for arrays, number of keys for object-kind values,
`0` for everything else. -/
def size : JsVal → Nat
  | varr xs => xs.length
  | vobj fs => ((fs.map Prod.fst).dedup).length
  | vdate _ => 0
  | _ => 0

/-- Property read `x[k]`; `undefined` when absent.  (Reading a property of
`null`/`undefined` throws in JavaScript; every use in the modelled code is
guarded so that case never arises.) -/
def objGet : JsVal → String → JsVal
  | vobj fs, k => ((fs.find? (fun p => p.1 = k)).map Prod.snd).getD vundef
  | _, _ => vundef

/-- Property write `x[k] = v` on an object (`Object.assign(x, {k: v})`):
replaces the value at an existing key in place, otherwise appends the key. -/
def objSet : JsVal → String → JsVal → JsVal
  | vobj fs, k, v =>
    if fs.any (fun p => p.1 = k) then vobj (fs.map (fun p => if p.1 = k then (k, v) else p))
    else vobj (fs ++ [(k, v)])
  | x, _, _ => x

/-- Models `Object.values` as used by `search` (object-kind values only). -/
def objValues : JsVal → List JsVal
  | vobj fs => fs.map Prod.snd
  | _ => []

/-- The own enumerable fields iterated by `for (key in x)`. -/
def fieldsOf : JsVal → List (String × JsVal)
  | vobj fs => fs
  | _ => []

end JsVal

mutual

/-- JavaScript `String(v)` coercion, as used by query building and `join`
(`String(v)` on an array is `join(',')`, which recursively stringifies
nested arrays). -/
def jsToString : JsVal → String
  | .vnull => "null"
  | .vundef => "undefined"
  | .vbool true => "true"
  | .vbool false => "false"
  | .vnum n => n.toStr
  | .vstr s => s
  | .vdate iso => iso
  | .varr xs => jsJoinSep "," xs
  | .vobj _ => "[object Object]"

/-- Models `Array.prototype.join(sep)`. -/
def jsJoinSep : String → List JsVal → String
  | _, [] => ""
  | _, [x] => jsJoinElem x
  | sep, x :: rest => jsJoinElem x ++ sep ++ jsJoinSep sep rest

/-- A single element under `Array.prototype.join`: `null` and `undefined`
render as the empty string, everything else via `String(v)`. -/
def jsJoinElem : JsVal → String
  | .vnull => ""
  | .vundef => ""
  | x => jsToString x

end

/-- Models `Array.prototype.join(',')` (used for the `bbox`/`collections`/`ids`
filter serializations). -/
def jsJoinComma (xs : List JsVal) : String :=
  jsJoinSep "," xs

/-! ### Character-list string helpers

String manipulation is done over `List Char` (converted at the boundaries via
`String.data` / `String.mk`) so that every function is plainly structural and
evaluates inside the kernel. -/

namespace Str

/-- Does `s` start with `p`? -/
def starts : List Char → List Char → Bool
  | _, [] => true
  | [], _ :: _ => false
  | c :: s, p :: ps => c = p && starts s ps

/-- Does `s` end with `p`? -/
def ends (s p : List Char) : Bool :=
  starts s.reverse p.reverse

/-- Split at the first occurrence of `c`: `before` and `after` (separator
dropped), or `none` if `c` does not occur (JS `indexOf` returning `-1`). -/
def splitFirst (c : Char) : List Char → Option (List Char × List Char)
  | [] => none
  | x :: rest =>
    if x = c then some ([], rest)
    else (splitFirst c rest).map (fun p => (x :: p.1, p.2))

/-- Split on every occurrence of `c` (JS `String.prototype.split(c)`). -/
def splitAll (c : Char) : List Char → List (List Char)
  | [] => [[]]
  | x :: rest =>
    let r := splitAll c rest
    if x = c then [] :: r
    else
      match r with
      | [] => [[x]]
      | h :: t => (x :: h) :: t

/-- Substring containment (JS `String.prototype.includes`). -/
def containsSub : List Char → List Char → Bool
  | _, [] => true
  | [], _ :: _ => false
  | hay@(_ :: hayRest), needle => starts hay needle || containsSub hayRest needle

/-- Lowercase every character. -/
def lower (s : List Char) : List Char :=
  s.map Char.toLower

end Str

/-! ### The `urijs` URL model

`utils.js` performs all URL work through the `urijs` library.  The structure
`Uri` models the parts record of a `urijs` instance; the functions below
model the `urijs` operations the module uses (`parse`, `build`/`toString`,
`absoluteTo`, `normalize`, `equals`, `setQuery`/`removeQuery`, `protocol`,
`filename`, `directory`, `suffix`), following the library's implementation.

Simplifications, none observable by the claims: the authority is kept as one
string (userinfo/host/port are not split out; "hostname present" is modelled
as "authority non-empty"); percent-encoding/decoding of components is not
modelled (query parameters are held in decoded, parsed form — the form urijs
manipulates); the query is stored parsed (key to list of values, a value
`none` being a key without `=`), which is the form urijs rebuilds whenever a
query is modified or normalized. -/

/-- The parts of a parsed URL, after `urijs`'s `URI.parse`.  `urn` marks a
`scheme:path`-shaped URL without the `//` authority marker. -/
structure Uri where
  scheme : Option String := none
  authority : Option String := none
  path : String := ""
  query : List (String × List (Option String)) := []
  fragment : Option String := none
  urn : Bool := false
  deriving Repr, DecidableEq, Inhabited

namespace Uri

/-- Does the URL have a (non-empty) hostname? -/
def hostPresent (u : Uri) : Bool :=
  match u.authority with
  | some a => a != ""
  | none => false

/-- Models `uri.is("relative")`: not a URN and no hostname. -/
def isRelative (u : Uri) : Bool :=
  !u.urn && !u.hostPresent

/-- Models `uri.protocol()`: the scheme, or `""`. -/
def protocol (u : Uri) : String :=
  u.scheme.getD ""

end Uri

/-- Query-map lookup (`data[k]` on the parsed query object). -/
def qget (q : List (String × List (Option String))) (k : String) :
    Option (List (Option String)) :=
  (q.find? (fun p => p.1 = k)).map Prod.snd

/-- Query-map update (`data[k] = v`): replaces in place, else appends. -/
def qset (q : List (String × List (Option String))) (k : String)
    (v : List (Option String)) : List (String × List (Option String)) :=
  if q.any (fun p => p.1 = k) then q.map (fun p => if p.1 = k then (k, v) else p)
  else q ++ [(k, v)]

/-- Query-map deletion (`delete data[k]`, i.e. `removeQuery`). -/
def qdel (q : List (String × List (Option String))) (k : String) :
    List (String × List (Option String)) :=
  q.filter (fun p => p.1 != k)

/-- Append one raw `key=value` occurrence while parsing a query string:
a repeated key collects its values in order (urijs `parseQuery`). -/
def qAppendParsed (q : List (String × List (Option String))) (k : String)
    (v : Option String) : List (String × List (Option String)) :=
  if q.any (fun p => p.1 = k) then
    q.map (fun p => if p.1 = k then (p.1, p.2 ++ [v]) else p)
  else q ++ [(k, [v])]

/-- Parse a raw query string (urijs `URI.parseQuery`, sans percent-decoding):
split on `&`, drop empty parts, split each at the first `=` (a missing `=`
gives a `null` value), group repeated keys. -/
def parseQueryStr (qs : Option String) : List (String × List (Option String)) :=
  match qs with
  | none => []
  | some q =>
    ((Str.splitAll '&' q.data).filter (fun p => !p.isEmpty)).foldl
      (fun acc part =>
        match Str.splitFirst '=' part with
        | some (k, v) => qAppendParsed acc (String.mk k) (some (String.mk v))
        | none => qAppendParsed acc (String.mk part) none)
      []

/-- The string a query value is deduplicated by in urijs `buildQuery`
(`value + ''`; `null` coerces to `"null"`). -/
def qCoerce : Option String → String
  | none => "null"
  | some s => s

/-- Deduplicate one key's values by their coerced form, keeping first
occurrences (urijs `buildQuery` with `duplicateQueryParameters` off). -/
def qDedup (seen : List String) : List (Option String) → List (Option String)
  | [] => []
  | v :: rest =>
    if seen.contains (qCoerce v) then qDedup seen rest
    else v :: qDedup (qCoerce v :: seen) rest

/-- Serialize one `key=value` occurrence (`buildQueryParameter`): a `null`
value renders as the bare key. -/
def buildQueryOne (k : String) : Option String → String
  | none => k
  | some v => k ++ "=" ++ v

/-- Serialize a parsed query map back to a raw query string (urijs
`buildQuery`): keys in order, each key's values deduplicated. -/
def buildQueryStr (q : List (String × List (Option String))) : String :=
  String.intercalate "&"
    (q.foldr (fun p acc => (qDedup [] p.2).map (buildQueryOne p.1) ++ acc) [])

namespace Uri

/-- Models `urijs` `URI.build` / `toString()`. -/
def toString (u : Uri) : String :=
  let t := match u.scheme with
    | some p => p ++ ":"
    | none => ""
  let requireAbs := !u.urn && (t != "" || u.hostPresent)
  let t := if requireAbs then t ++ "//" else t
  let t := t ++ (u.authority.getD "")
  let t := if requireAbs && !Str.starts u.path.data ['/'] then t ++ "/" ++ u.path
    else t ++ u.path
  let qs := buildQueryStr u.query
  let t := if qs != "" then t ++ "?" ++ qs else t
  match u.fragment with
  | some f => if f != "" then t ++ "#" ++ f else t
  | none => t

/-- Models `uri.filename()`: the part of the path after the last `/`. -/
def filename (u : Uri) : String :=
  if u.path = "" || u.path = "/" then ""
  else
    match Str.splitFirst '/' u.path.data.reverse with
    | some (revName, _) => String.mk revName.reverse
    | none => u.path

/-- Models `uri.directory()`: the path up to (excluding) the filename and its
leading slash. -/
def directory (u : Uri) : String :=
  if u.path = "" && !u.hostPresent then ""
  else if u.path = "/" then "/"
  else
    let cut := u.path.data.length - (u.filename.data.length + 1)
    let res := String.mk (u.path.data.take cut)
    if u.path.data.length < u.filename.data.length + 1 then
      if u.hostPresent then "/" else ""
    else if res != "" then res
    else if u.hostPresent then "/" else ""

/-- Is a character allowed in a urijs suffix (`/^[a-z0-9%]+$/i`)? -/
def suffixChar (c : Char) : Bool :=
  c.isAlpha || c.isDigit || c = '%'

/-- Models `uri.suffix()`: the filename's extension, if alphanumeric. -/
def suffix (u : Uri) : String :=
  if u.urn then ""
  else if u.path = "" || u.path = "/" then ""
  else
    let f := u.filename.data
    match Str.splitFirst '.' f.reverse with
    | none => ""
    | some (revSuf, _) =>
      let s := revSuf.reverse
      if !s.isEmpty && s.all suffixChar then String.mk s else ""

end Uri

/-! ### Path normalization (`urijs` `normalizePath`) -/

/-- Consume a maximal run of `./` pairs; returns how many were consumed and
what follows. -/
def munchDotSlash : List Char → Nat × List Char
  | '.' :: '/' :: rest =>
    let r := munchDotSlash rest
    (r.1 + 1, r.2)
  | l => (0, l)

/-- One left-to-right pass of `replace(/(\/(\.\/)+)|(\/\.$)/g, '/')`:
a slash followed by a run of `./` pairs collapses to a slash, and a trailing
`/.` becomes `/`.  Fuel-driven (the match consumes a non-constant amount);
callers pass `length + 1`. -/
def collapseDotsF : Nat → List Char → List Char
  | 0, l => l
  | _ + 1, [] => []
  | fuel + 1, '/' :: rest =>
    match munchDotSlash rest with
    | (0, _) => if rest = ['.'] then ['/'] else '/' :: collapseDotsF fuel rest
    | (_ + 1, rest') => '/' :: collapseDotsF fuel rest'
  | fuel + 1, c :: rest => c :: collapseDotsF fuel rest

/-- Consume a maximal run of slashes. -/
def munchSlashes : List Char → Nat × List Char
  | '/' :: rest =>
    let r := munchSlashes rest
    (r.1 + 1, r.2)
  | l => (0, l)

/-- Models `replace(/\/{2,}/g, '/')`: collapse runs of two or more slashes. -/
def collapseSlashesF : Nat → List Char → List Char
  | 0, l => l
  | _ + 1, [] => []
  | fuel + 1, '/' :: rest =>
    match munchSlashes rest with
    | (0, _) => '/' :: collapseSlashesF fuel rest
    | (_ + 1, rest') => '/' :: collapseSlashesF fuel rest'
  | fuel + 1, c :: rest => c :: collapseSlashesF fuel rest

/-- The index of the first match of `/\.\.(\/|$)/` (a `/..` segment), if any. -/
def findParentIdx : List Char → Option Nat
  | '/' :: '.' :: '.' :: [] => some 0
  | '/' :: '.' :: '.' :: '/' :: _ => some 0
  | _ :: rest => (findParentIdx rest).map (· + 1)
  | [] => none

/-- The index of the last `/` strictly before position `stop`, if any
(`path.substring(0, parent).lastIndexOf('/')`). -/
def lastSlashBefore (l : List Char) (stop : Nat) : Option Nat :=
  match Str.splitFirst '/' (l.take stop).reverse with
  | some (revAfter, _) => some (stop - 1 - revAfter.length)
  | none => none

/-- The `while (true)` loop of `normalizePath` resolving `/..` segments
against their parent directory.  Fuel-driven; each iteration strictly
shortens the path, so `length + 1` fuel suffices. -/
def resolveParentsF : Nat → List Char → List Char
  | 0, l => l
  | fuel + 1, l =>
    match findParentIdx l with
    | none => l
    | some 0 => resolveParentsF fuel (l.drop 3)
    | some idx =>
      let pos := (lastSlashBefore l idx).getD idx
      resolveParentsF fuel (l.take pos ++ l.drop (idx + 3))

/-- The leading `../` run of a relative path (`match(/^(\.\.\/)+/)`). -/
def leadingParents : List Char → List Char
  | '.' :: '.' :: '/' :: rest => '.' :: '.' :: '/' :: leadingParents rest
  | _ => []

/-- Models `urijs` `normalizePath`.  `isRel` is `this.is('relative')` at the time of
the call (it decides whether a relative path is restored at the end). -/
def normalizePathFn (isRel : Bool) (p : String) : String :=
  if p = "" || p = "/" then p
  else
    let l := p.data
    let wasRel := !Str.starts l ['/']
    let l := if wasRel then '/' :: l else l
    let l := if Str.ends l ['/', '.', '.'] || Str.ends l ['/', '.'] then l ++ ['/'] else l
    let l := collapseDotsF (l.length + 1) l
    let l := collapseSlashesF (l.length + 1) l
    let lead := if wasRel then leadingParents (l.drop 1) else []
    let l := resolveParentsF (l.length + 1) l
    let l := if wasRel && isRel then lead ++ l.drop 1 else l
    String.mk l

/-! ### Parsing (`urijs` `URI.parse`) -/

/-- Models `URI.protocol_expression` (`/^[a-z][a-z0-9.+-]*$/i`). -/
def protocolChar (c : Char) : Bool :=
  c.isAlpha || c.isDigit || c = '.' || c = '+' || c = '-'

/-- Does a candidate scheme match `URI.protocol_expression`? -/
def protocolShaped (l : List Char) : Bool :=
  match l with
  | [] => false
  | c :: rest => c.isAlpha && rest.all protocolChar

/-- The web schemes special-cased by urijs's WHATWG fix-up
(`https?|ftp|wss?`), longest first so that prefix matching is greedy. -/
def webSchemes : List (List Char) := ["https", "http", "wss", "ftp", "ws"].map String.data

/-- Consume a maximal run of `c`. -/
def munchChar (c : Char) : List Char → Nat × List Char
  | x :: rest =>
    if x = c then
      let r := munchChar c rest
      (r.1 + 1, r.2)
    else (0, x :: rest)
  | [] => (0, [])

/-- Consume a maximal run of slashes or backslashes. -/
def munchAnySlash : List Char → Nat × List Char
  | x :: rest =>
    if x = '/' || x = '\\' then
      let r := munchAnySlash rest
      (r.1 + 1, r.2)
    else (0, x :: rest)
  | [] => (0, [])

/-- Try to match one of the web schemes case-insensitively at the start,
returning the original-case scheme and the rest. -/
def matchWebScheme (l : List Char) : Option (List Char × List Char) :=
  (webSchemes.filterMap (fun cand =>
    if Str.starts (Str.lower l) cand then some (l.take cand.length, l.drop cand.length)
    else none)).head?

/-- urijs's first WHATWG fix-up:
`replace(/^(https?|ftp|wss?)?:+[/\\]*/i, '$1://')`. -/
def whatwgFixScheme (l : List Char) : Option (List Char) :=
  match matchWebScheme l with
  | some (orig, rest) =>
    match munchChar ':' rest with
    | (0, _) =>
      -- no colon after the scheme word: the group backtracks to empty
      match munchChar ':' l with
      | (0, _) => none
      | (_ + 1, rest') => some (':' :: '/' :: '/' :: (munchAnySlash rest').2)
    | (_ + 1, rest') => some (orig ++ (':' :: '/' :: '/' :: (munchAnySlash rest').2))
  | none =>
    match munchChar ':' l with
    | (0, _) => none
    | (_ + 1, rest') => some (':' :: '/' :: '/' :: (munchAnySlash rest').2)

/-- urijs's second WHATWG fix-up: `replace(/^[/\\]{2,}/i, '//')`. -/
def whatwgFixSlashes (l : List Char) : List Char :=
  match munchAnySlash l with
  | (n, rest) => if n ≥ 2 then '/' :: '/' :: rest else l

/-- Both WHATWG fix-ups applied in sequence.  (When the first one matches,
its output starts with the scheme or `:`, which the second cannot match.) -/
def whatwgFix (l : List Char) : List Char :=
  match whatwgFixScheme l with
  | some r => r
  | none => whatwgFixSlashes l

/-- Models `URI.parseAuthority`/`parseHost`: backslashes in the remainder become
slashes, then everything up to the first slash is the authority and the rest
(keeping its leading slash) is the path. -/
def parseAuthoritySplit (l : List Char) : List Char × List Char :=
  let l := l.map (fun c => if c = '\\' then '/' else c)
  match Str.splitFirst '/' l with
  | some (auth, rest) => (auth, '/' :: rest)
  | none => (l, [])

/-- Models `URI.parse`: extract fragment, then query, apply the WHATWG fix-ups,
then extract protocol and authority; whatever remains is the path.
(Leading-whitespace stripping and percent-recoding are not modelled.) -/
def parseUri (s : String) : Uri :=
  let l := s.data
  let (l, frag) := match Str.splitFirst '#' l with
    | some (before, after) =>
      (before, if after.isEmpty then none else some (String.mk after))
    | none => (l, none)
  let (l, qs) := match Str.splitFirst '?' l with
    | some (before, after) =>
      (before, if after.isEmpty then none else some (String.mk after))
    | none => (l, none)
  let l := whatwgFix l
  let query := parseQueryStr qs
  if Str.starts l ['/', '/'] then
    let (auth, path) := parseAuthoritySplit (l.drop 2)
    { scheme := none, authority := some (String.mk auth), path := String.mk path,
      query := query, fragment := frag, urn := false }
  else
    match Str.splitFirst ':' l with
    | none =>
      { scheme := none, authority := none, path := String.mk l,
        query := query, fragment := frag, urn := false }
    | some (before, after) =>
      let protoOpt := if before.isEmpty then none else some (String.mk before)
      if !before.isEmpty && !protocolShaped before then
        -- the colon is taken to be part of the path
        { scheme := none, authority := none, path := String.mk l,
          query := query, fragment := frag, urn := false }
      else if Str.starts (after.map (fun c => if c = '\\' then '/' else c)) ['/', '/'] then
        let (auth, path) := parseAuthoritySplit (after.drop 2)
        { scheme := protoOpt, authority := some (String.mk auth), path := String.mk path,
          query := query, fragment := frag, urn := false }
      else
        { scheme := protoOpt, authority := none, path := String.mk after,
          query := query, fragment := frag, urn := true }

/-! ### Normalization, resolution, equality -/

/-- The default port urijs strips for a scheme (`URI.defaultPorts`). -/
def defaultPort : String → Option String
  | "http" => some "80"
  | "https" => some "443"
  | "ftp" => some "21"
  | "ws" => some "80"
  | "wss" => some "443"
  | _ => none

namespace Uri

/-- Models `normalizePort` on the combined authority string: drop a `:port` suffix
equal to the (lowercased) scheme's default port. -/
def stripDefaultPort (scheme : Option String) (a : String) : String :=
  match scheme with
  | none => a
  | some sc =>
    match defaultPort sc with
    | none => a
    | some d =>
      if Str.ends a.data (':' :: d.data) then String.mk (a.data.take (a.data.length - (d.data.length + 1)))
      else a

/-- Models `uri.normalize()`: lowercase the scheme and host, strip a default port,
normalize the path, rebuild the query (deduplicating repeated values), drop
an empty fragment.  For URNs only scheme/query/fragment are normalized. -/
def normalize (u : Uri) : Uri :=
  let scheme := u.scheme.map (fun s => String.mk (Str.lower s.data))
  let query := u.query.map (fun p => (p.1, qDedup [] p.2))
  let fragment := match u.fragment with
    | some "" => none
    | f => f
  if u.urn then { u with scheme := scheme, query := query, fragment := fragment }
  else
    let authority := u.authority.map (fun a =>
      stripDefaultPort scheme (String.mk (Str.lower a.data)))
    { u with scheme := scheme, authority := authority,
             path := normalizePathFn u.isRelative u.path,
             query := query, fragment := fragment }

/-- Models `uri.absoluteTo(base)` (urijs's RFC-3986-style resolution).  The urijs
method throws for URNs; `normalizeUri` only calls it on non-URN relative
URLs, so that branch returns the input unchanged here.  Note the faithful
quirk: `path.substring(-2) === '..'` is only true when the whole path is
`..`. -/
def absoluteTo (resolved base : Uri) : Uri :=
  if resolved.urn then resolved
  else if resolved.scheme.isSome then resolved
  else
    let r := { resolved with scheme := base.scheme }
    if resolved.hostPresent then r
    else
      let r := { r with authority := base.authority }
      if r.path = "" then
        { r with path := base.path,
                 query := if r.query.isEmpty then base.query else r.query }
      else
        let p := if r.path = ".." then "../" else r.path
        if Str.starts p.data ['/'] then { r with path := p }
        else
          let bd := base.directory
          let bd := if bd != "" then bd
            else if Str.starts base.path.data ['/'] then "/" else ""
          let p := (if bd != "" then bd ++ "/" else "") ++ p
          { r with path := normalizePathFn r.isRelative p }

/-- Models `uri.equals(other)`: compare the normalized forms; if the serializations
differ, compare the query-less serializations, the raw query lengths, and
the parsed query maps (order-insensitively). -/
def equalsU (a b : Uri) : Bool :=
  let one := a.normalize
  let two := b.normalize
  if one.toString = two.toString then true
  else
    let oneQ := buildQueryStr one.query
    let twoQ := buildQueryStr two.query
    let one' := { one with query := [] }
    let two' := { two with query := [] }
    if one'.toString != two'.toString then false
    else if oneQ.length != twoQ.length then false
    else
      (one.query.all (fun p => qget two.query p.1 = some p.2)) &&
      (two.query.all (fun p => (qget one.query p.1).isSome))

/-- The `path(v)` setter: an empty string sets the path to `/`. -/
def pathSet (u : Uri) (p : String) : Uri :=
  { u with path := if p = "" then "/" else p }

/-- Models `uri.setQuery(key, value)` with an already-prepared value list. -/
def setQuery (u : Uri) (k : String) (v : List (Option String)) : Uri :=
  { u with query := qset u.query k v }

/-- Models `uri.removeQuery(key)`. -/
def removeQuery (u : Uri) (k : String) : Uri :=
  { u with query := qdel u.query k }

end Uri

/-! ### The `utils.js` functions under verification -/

/-- Models `browserImageTypes` (media types browsers can render inline). -/
def browserImageTypes : List String :=
  ["image/gif", "image/jpg", "image/jpeg", "image/apng", "image/png", "image/webp"]

/-- Models `browserProtocols`. -/
def browserProtocols : List String :=
  ["http", "https"]

/-- Models `Utils.isGdalVfsUri`: a string starting with `/vsi` but not `/vsicurl/`. -/
def isGdalVfsUri (url : String) : Bool :=
  Str.starts url.data "/vsi".data && !Str.starts url.data "/vsicurl/".data

/-- The initial step of `normalizeUri`:
`href.replace(/^\/vsicurl\//, '')` (strip one leading `/vsicurl/`). -/
def stripVsicurl (href : String) : String :=
  if Str.starts href.data "/vsicurl/".data then String.mk (href.data.drop 9) else href

/-- The body of `Utils.normalizeUri` after the `/vsicurl/` strip: parse,
resolve against `baseUrl` (when given, non-empty, the href is relative and
not a GDAL VFS path) after appending `/` to a base path that ends neither in
`/` nor in `.json`, normalize, and optionally drop query and fragment. -/
def normalizeUriCore (href : String) (baseUrl : Option String) (noParams : Bool) : Uri :=
  let uri := parseUri href
  let uri := match baseUrl with
    | some b =>
      if b != "" && uri.isRelative && !isGdalVfsUri href then
        let baseUri := parseUri b
        let bp := baseUri.path
        let baseUri :=
          if !Str.ends bp.data "/".data && !Str.ends bp.data ".json".data then
            { baseUri with path := bp ++ "/" }
          else baseUri
        uri.absoluteTo baseUri
      else uri
    | none => uri
  let uri := uri.normalize
  if noParams then { uri with query := [], fragment := none } else uri

/-- Models `Utils.normalizeUri(href, baseUrl, noParams, stringify=false)`: the
structured result. -/
def normalizeUriU (href : String) (baseUrl : Option String) (noParams : Bool) : Uri :=
  normalizeUriCore (stripVsicurl href) baseUrl noParams

/-- Models `Utils.normalizeUri(href, baseUrl, noParams)` with `stringify` left at
its default `true`. -/
def normalizeUri (href : String) (baseUrl : Option String) (noParams : Bool) : String :=
  (normalizeUriU href baseUrl noParams).toString

/-- Models `Utils.toAbsolute(href, baseUrl)`. -/
def toAbsolute (href : String) (baseUrl : Option String) : String :=
  normalizeUri href baseUrl false

/-- The predicate of `getLinkWithRel`'s `find`: a real object whose `href`
has text and whose `rel` strictly equals the given relation. -/
def linkMatches (link : JsVal) (rel : String) : Bool :=
  link.isObject && (link.objGet "href").hasText &&
    (match link.objGet "rel" with
     | .vstr r => r = rel
     | _ => false)

/-- Models `Utils.getLinkWithRel(links, rel)`: `Array.prototype.find` over the
links (`undefined` when nothing matches), `null` for non-array input. -/
def getLinkWithRel (links : JsVal) (rel : String) : JsVal :=
  match links with
  | .varr xs => (xs.find? (fun link => linkMatches link rel)).getD .vundef
  | _ => .vnull

/-- Models `new URI(x)` on an arbitrary value: strings parse; `null` and
`undefined` make the constructor itself throw, and its `href` setter throws
`TypeError('invalid input')` for numbers, booleans, and every object-kind
value that is not a plain object with a truthy `hostname`, `path` or
`pathname` property — so arrays, dates and part-less objects all fail
(`none` here).  An accepted object gets its recognized `_parts` fields
copied (string-valued part fields and a boolean `urn` are modelled;
`pathname` passes the acceptance test but is not a part key, so it copies
nothing). -/
def uriOfInput : JsVal → Option Uri
  | .vstr s => some (parseUri s)
  | .vobj fs =>
    if (JsVal.objGet (.vobj fs) "hostname").truthy
        || (JsVal.objGet (.vobj fs) "path").truthy
        || (JsVal.objGet (.vobj fs) "pathname").truthy then
      let str := fun k => match JsVal.objGet (.vobj fs) k with
        | .vstr s => some s
        | _ => none
      some { scheme := str "protocol",
             authority := (str "hostname").map (fun h =>
               match str "port" with
               | some p => h ++ ":" ++ p
               | none => h),
             path := (str "path").getD "",
             query := parseQueryStr (str "query"),
             fragment := str "fragment",
             urn := match JsVal.objGet (.vobj fs) "urn" with
               | .vbool b => b
               | _ => false }
    else none
  | _ => none

/-- A `urijs` URL with one trailing slash stripped from its path, as
`equalUrl` computes for each argument
(`uri.path(uri.path().replace(/\/$/, ''))`). -/
def stripTrailingSlash (u : Uri) : Uri :=
  u.pathSet (if Str.ends u.path.data ['/'] then String.mk (u.path.data.take (u.path.data.length - 1))
             else u.path)

/-- Models `Utils.equalUrl(a, b)`: parse both, strip one trailing slash from each
path, compare with `equals`; a throwing parse is caught and yields `false`. -/
def equalUrl (a b : JsVal) : Bool :=
  match uriOfInput a, uriOfInput b with
  | some u1, some u2 => (stripTrailingSlash u1).equalsU (stripTrailingSlash u2)
  | _, _ => false

/-- Models `Utils.formatDatetimeQuery(value)`: map each bound (`Date` to its UTC
ISO string, other truthy values kept, falsy values to `..`) and join with
`/`. -/
def formatDatetimeQuery (xs : List JsVal) : String :=
  jsJoinSep "/" (xs.map (fun dt =>
    match dt with
    | .vdate iso => .vstr iso
    | dt => if dt.truthy then dt else .vstr ".."))

/-- The removal test of `addFiltersToLink`: `null`, a non-finite number, an
empty string, or an object-kind value of size 0. -/
def removable : JsVal → Bool
  | .vnull => true
  | .vnum n => !n.finite
  | .vstr s => s = ""
  | .varr xs => xs.isEmpty
  | .vobj fs => JsVal.size (.vobj fs) = 0
  | .vdate _ => true
  | _ => false

/-- Modelled from the spec: `Queryable.formatText` (in
`src/models/queryable.js`, which is not among the provided sources)
serializes the structured query-language payload of the `filters` key into
query-string parameters, which `addFiltersToLink` sets wholesale
(replacing, not merging).  The spec leaves the parameter grammar undefined;
it is modelled as a single `filter` parameter carrying a string rendering of
the payload. -/
def formatText (v : JsVal) : List (String × JsVal) :=
  [("filter", .vstr (jsToString v))]

/-- The value list `setQuery(key, value)` stores: scalars coerce to one
string, `undefined` becomes `null` (a bare key), arrays store one value per
element with `undefined` elements skipped at build time. -/
def setQueryVal : JsVal → List (Option String)
  | .vundef => [none]
  | .vnull => [none]
  | .varr xs => xs.filterMap (fun x =>
      match x with
      | .vnull => some none
      | .vundef => none
      | x => some (some (jsToString x)))
  | x => [some (jsToString x)]

/-- The `datetime` arm of the `addFiltersToLink` loop:
`Utils.formatDatetimeQuery(value)` calls `value.map`, which throws (`none`)
for a non-array value. -/
def datetimeArm (u : Uri) (key : String) : JsVal → Option Uri
  | .varr xs => some (u.setQuery key [some (formatDatetimeQuery xs)])
  | _ => none

/-- The `bbox`/`collections`/`ids` arm: an array value is comma-joined,
anything else falls through to a plain `setQuery`. -/
def joinArm (u : Uri) (key : String) : JsVal → Option Uri
  | .varr xs => some (u.setQuery key [some (jsJoinComma xs)])
  | v => some (u.setQuery key (setQueryVal v))

/-- One iteration of the `addFiltersToLink` loop for the key/value pair:
remove removable values; serialize `datetime`, array-valued `bbox`,
`collections` and `ids`; delegate `filters`; plain `setQuery` otherwise. -/
def applyFilter (u : Uri) (key : String) (v : JsVal) : Option Uri :=
  if removable v then some (u.removeQuery key)
  else if key = "datetime" then datetimeArm u key v
  else if key = "bbox" then joinArm u key v
  else if key = "collections" ∨ key = "ids" then joinArm u key v
  else if key = "filters" then
    some ((formatText v).foldl (fun acc p => acc.setQuery p.1 (setQueryVal p.2)) u)
  else some (u.setQuery key (setQueryVal v))

/-- The `for (let key in filters)` loop. -/
def applyFilters : Option Uri → List (String × JsVal) → Option Uri
  | none, _ => none
  | some u, [] => some u
  | some u, (k, v) :: rest => applyFilters (applyFilter u k v) rest

/-- The URL `addFiltersToLink` builds from a link's `href`. -/
def addFiltersUri (href : String) (filters : List (String × JsVal)) : Option Uri :=
  applyFilters (some (parseUri href)) filters

/-- Models `Utils.addFiltersToLink(link, filters)`:
`Object.assign({}, link, { href: url.toString() })`.  `none` models a
throw: a non-string `href` (the `URI` constructor throws) or a non-array
`datetime` value. -/
def addFiltersToLink (link : JsVal) (filters : List (String × JsVal)) : Option JsVal :=
  match link.objGet "href" with
  | .vstr s => (addFiltersUri s filters).map (fun u => link.objSet "href" (.vstr u.toString))
  | _ => none

/-- Models `Utils.canBrowserDisplayImage(img)`. -/
def canBrowserDisplayImage (img : JsVal) : Bool :=
  match img.objGet "href" with
  | .vstr href =>
    let uri := parseUri href
    let proto := String.mk (Str.lower uri.protocol.data)
    if proto != "" && !browserProtocols.contains proto then false
    else if (match img.objGet "type" with
             | .vstr t => browserImageTypes.contains t
             | _ => false) then true
    else if browserImageTypes.contains ("image/" ++ String.mk (Str.lower uri.suffix.data)) then true
    else if (img.objGet "type").truthy then false
    else true
  | _ => false

/-- The decision policy of the spec for `canBrowserDisplayImage`,
transcribed rule by rule from the spec's wording for comparison against the
implementation: (a) `href` must be a string, else false; (b) if the URL's
scheme is present and is neither `http` nor `https`, false; (c) if the
declared `type` is in the browser-renderable image type list, true; (d) else
if the URL's file extension prefixed with `image/` is in that same list,
true; (e) else if a `type` was declared (a truthy `type` property, as in the
code's final guard), false; (f) else true (optimistic fallback). -/
def browserDisplayPolicy (img : JsVal) : Bool :=
  match img.objGet "href" with
  | .vstr href =>
    let uri := parseUri href
    let scheme := String.mk (Str.lower uri.protocol.data)
    let declared := img.objGet "type"
    if scheme != "" && !(scheme == "http" || scheme == "https") then false
    else if (match declared with
             | .vstr t => browserImageTypes.contains t
             | _ => false) then true
    else if browserImageTypes.contains ("image/" ++ String.mk (Str.lower uri.suffix.data)) then true
    else if declared.truthy then false
    else true
  | _ => false

/-! ### `Utils.search`

The split pattern in the source is the regex `[\s.,;!&({[)}]]+` (global).
Its character class is terminated by the first `]`, so the pattern matches
one character of the class `[\s.,;!&({[)}]` followed by a run of one or more
literal `]` characters — not, as presumably intended, runs of
whitespace/punctuation.  The functions below implement the pattern exactly
as written.  (Unicode whitespace beyond ASCII is not modelled.) -/

/-- The character class `[\s.,;!&({[)}]` of the split pattern. -/
def splitCharSet : List Char :=
  [' ', '\t', '\n', '\r', '\x0b', '\x0c',
   '.', ',', ';', '!', '&', '(', '\x7b', '[', ')', '\x7d']

/-- Models `String.prototype.split` on the pattern: scanning left to right, a match
is a class character followed by one or more `]`; `inSep` means the scanner
is inside the `]`-run of a match. -/
def goSplit : List Char → List Char → Bool → List (List Char)
  | [], cur, _ => [cur.reverse]
  | c :: rest, cur, inSep =>
    if inSep && c = ']' then goSplit rest cur true
    else if splitCharSet.contains c && rest.head? = some ']' then
      cur.reverse :: goSplit rest [] true
    else goSplit rest (c :: cur) false

/-- Models `String.prototype.replace` of each match of the pattern by one space. -/
def goReplace : List Char → Bool → List Char
  | [], _ => []
  | c :: rest, inSep =>
    if inSep && c = ']' then goReplace rest true
    else if splitCharSet.contains c && rest.head? = some ']' then
      ' ' :: goReplace rest true
    else c :: goReplace rest false

/-- Models `Utils.search(searchterm, target, and)`: lowercase and split the term,
flatten the target (object values or a single string, keeping only string
members, joined by spaces, split characters replaced by spaces, lowercased),
then test substring containment of every (`and`) or some (`or`) token. -/
def search (searchterm : String) (target : JsVal) (andFlag : Bool) : Bool :=
  if searchterm = "" then false
  else
    let targetArr : Option (List JsVal) :=
      if target.isObject then some target.objValues
      else match target with
        | .vstr s => some [.vstr s]
        | .varr xs => some xs
        | _ => none
    match targetArr with
    | none => false
    | some xs =>
      let terms := (goSplit (Str.lower searchterm.data) [] false).map String.mk
      let joined := String.intercalate " "
        (xs.filterMap (fun v => match v with | .vstr s => some s | _ => none))
      let tgt := Str.lower (goReplace joined.data false)
      if andFlag then terms.all (fun t => Str.containsSub tgt t.data)
      else terms.any (fun t => Str.containsSub tgt t.data)

/-! ### `Utils.mergeDeep` -/

mutual

/-- One source merged into the target (the body of `mergeDeep` for a single
source).  Only object-kind targets and sources merge; a `Date` source has no
own enumerable keys, so it contributes nothing.  (Mutation of the target is
modelled by returning the updated value.) -/
def mergeOne : JsVal → JsVal → JsVal
  | t, .vobj fields => if t.isObject then mergeFields t fields else t
  | t, _ => t

/-- The `for (const key in source)` loop of `mergeDeep`: an object-kind
source value descends (materializing `{}` when the target value is falsy),
anything else overwrites. -/
def mergeFields : JsVal → List (String × JsVal) → JsVal
  | t, [] => t
  | t, (k, v) :: rest =>
    let t' :=
      if v.isObject then
        let t1 := if (t.objGet k).truthy then t else t.objSet k (.vobj [])
        t1.objSet k (mergeOne (t1.objGet k) v)
      else t.objSet k v
    mergeFields t' rest

end

/-- Models `Utils.mergeDeep(target, ...sources)`: sources merged into the target
in argument order. -/
def mergeDeep (t : JsVal) : List JsVal → JsVal
  | [] => t
  | s :: rest => mergeDeep (mergeOne t s) rest

/-! ## Theorems -/

/-- A `find?` hitting index `i` whose predicate fails strictly before `i`
returns exactly the element at `i`. -/
theorem find?_at_first_index {α : Type} (p : α → Bool) :
    ∀ (xs : List α) (i : Fin xs.length), p (xs.get i) = true →
      (∀ j : Fin xs.length, j.val < i.val → p (xs.get j) = false) →
      xs.find? p = some (xs.get i)
  | [], i, _, _ => absurd i.isLt (by simp)
  | x :: rest, ⟨0, _⟩, hp, _ => by simp only [List.get] at hp; simp [List.find?, hp]
  | x :: rest, ⟨k + 1, hk⟩, hp, hj => by
    have hx : p x = false := hj ⟨0, Nat.succ_pos _⟩ (Nat.succ_pos _)
    have ih := find?_at_first_index p rest ⟨k, Nat.lt_of_succ_lt_succ hk⟩
      (by simpa using hp)
      (fun j hjk => by
        have := hj ⟨j.val + 1, Nat.succ_lt_succ j.isLt⟩ (Nat.succ_lt_succ hjk)
        simpa using this)
    simp [List.find?, hx, ih]

/-- Claim C5: `getLinkWithRel` returns the first well-formed link (an object
with a non-empty string `href`) whose `rel` strictly equals the given
relation, skipping malformed entries; input order determines precedence, and
it returns `undefined` (a "none" value) exactly when no such entry exists. -/
theorem getLinkWithRel_first (xs : List JsVal) (rel : String) :
    (getLinkWithRel (.varr xs) rel = .vundef ↔ ∀ l ∈ xs, linkMatches l rel = false) ∧
    (∀ i : Fin xs.length, linkMatches (xs.get i) rel = true →
      (∀ j : Fin xs.length, j.val < i.val → linkMatches (xs.get j) rel = false) →
      getLinkWithRel (.varr xs) rel = xs.get i) := by
  constructor
  · constructor
    · intro h l hl
      by_contra hc
      rw [Bool.not_eq_false] at hc
      have hsome : (xs.find? (fun link => linkMatches link rel)).isSome :=
        List.find?_isSome.mpr ⟨l, hl, hc⟩
      obtain ⟨y, hy⟩ := Option.isSome_iff_exists.mp hsome
      have hpy := List.find?_some hy
      simp only [] at hpy
      rw [getLinkWithRel, hy] at h
      simp only [Option.getD_some] at h
      rw [h] at hpy
      simp [linkMatches, JsVal.isObject] at hpy
    · intro h
      rw [getLinkWithRel, List.find?_eq_none.mpr (fun l hl => by simp [h l hl])]
      rfl
  · intro i hp hj
    rw [getLinkWithRel, find?_at_first_index _ xs i hp hj]
    rfl

/-- Witness for C5 at the spec's own example: the second link is returned
for `rel = "parent"` (the first fails the predicate), and the empty list
gives `undefined`. -/
theorem getLinkWithRel_first_witness :
    getLinkWithRel (.varr [.vobj [("href", .vstr "a"), ("rel", .vstr "self")],
                           .vobj [("href", .vstr "b"), ("rel", .vstr "parent")]]) "parent" =
      .vobj [("href", .vstr "b"), ("rel", .vstr "parent")] ∧
    getLinkWithRel (.varr []) "self" = .vundef := by
  constructor
  · exact (getLinkWithRel_first _ "parent").2 ⟨1, by decide⟩ (by decide) (by decide)
  · exact (getLinkWithRel_first [] "self").1.mpr (by simp)

/-- Claim C2: `normalizeUri` strips a leading `/vsicurl/` before any further
processing; and a GDAL VFS href (`/vsi...` but not `/vsicurl/...`) is never
resolved against a given `baseUrl` — with a base the result is the same as
with no base at all, i.e. the href only gets normalized.  The two closed
conjuncts are the spec's examples. -/
theorem normalizeUri_gdal_vfs :
    (∀ (href : String) (baseUrl : Option String) (np : Bool),
      Str.starts href.data "/vsicurl/".data = true →
      normalizeUriU href baseUrl np = normalizeUriCore (String.mk (href.data.drop 9)) baseUrl np) ∧
    (∀ (href base : String) (np : Bool),
      isGdalVfsUri href = true →
      normalizeUriU href (some base) np = normalizeUriU href none np) ∧
    normalizeUri "/vsicurl/https://x.com/a.tif" none false = "https://x.com/a.tif" ∧
    normalizeUri "/vsizip/data.zip" (some "https://ex.com/") false = "/vsizip/data.zip" := by
  refine ⟨?_, ?_, by decide, by decide⟩
  · intro href baseUrl np h
    rw [normalizeUriU, stripVsicurl, if_pos h]
  · intro href base np h
    have hnv : Str.starts href.data "/vsicurl/".data = false := by
      rcases Bool.and_eq_true _ _ |>.mp h with ⟨_, h2⟩
      simpa using h2
    rw [normalizeUriU, normalizeUriU, stripVsicurl, if_neg (by simp [hnv])]
    rw [normalizeUriCore, normalizeUriCore]
    simp [h]

/-- Witness for C2: both universal parts applied at the spec's examples. -/
theorem normalizeUri_gdal_vfs_witness :
    Str.starts "/vsicurl/https://x.com/a.tif".data "/vsicurl/".data = true ∧
    normalizeUriU "/vsicurl/https://x.com/a.tif" none false =
      normalizeUriCore (String.mk ("/vsicurl/https://x.com/a.tif".data.drop 9)) none false ∧
    isGdalVfsUri "/vsizip/data.zip" = true ∧
    normalizeUriU "/vsizip/data.zip" (some "https://ex.com/") false =
      normalizeUriU "/vsizip/data.zip" none false := by
  exact ⟨by decide, normalizeUri_gdal_vfs.1 _ none false (by decide), by decide,
    normalizeUri_gdal_vfs.2.1 _ "https://ex.com/" false (by decide)⟩

/-- Claim C4: `canBrowserDisplayImage` implements exactly the spec's
decision order (a)-(f), stated as equality with `browserDisplayPolicy`, the
rule-by-rule transcription of the spec's policy. -/
theorem canBrowserDisplayImage_policy (img : JsVal) :
    canBrowserDisplayImage img = browserDisplayPolicy img := by
  rw [canBrowserDisplayImage, browserDisplayPolicy]
  cases img.objGet "href" <;> simp [browserProtocols, List.contains]

/-- Claim C8 (code bug): the split pattern `[\s.,;!&({[)}]]+` terminates its
character class at the first `]`, so it only matches a separator character
followed by literal `]`s; `"foo bar"` therefore stays a single token and the
spec's examples fail: both searches return `false` where the spec expects
`true`. -/
theorem search_split_regex_bug :
    search "foo bar" (.vstr "a foo value") true = false ∧
    search "foo baz" (.vstr "a foo value") false = false ∧
    goSplit "foo bar".data [] false = ["foo bar".data] := by
  refine ⟨by decide, by decide, by decide⟩

/-- Claim C9: `mergeDeep` is an identity for an empty-object source (for
every target value), merges sources left to right in argument order (its
defining fold), and on the spec's example merges nested objects key-by-key;
with two sources in conflict on a leaf key the later source wins. -/
theorem mergeDeep_order_and_identity :
    (∀ t : JsVal, mergeDeep t [.vobj []] = t) ∧
    (∀ (t s : JsVal) (rest : List JsVal),
      mergeDeep t (s :: rest) = mergeDeep (mergeOne t s) rest) ∧
    mergeDeep (.vobj [("a", .vobj [("b", .vnum (.int 1))])])
        [.vobj [("a", .vobj [("c", .vnum (.int 2))])]] =
      .vobj [("a", .vobj [("b", .vnum (.int 1)), ("c", .vnum (.int 2))])] ∧
    mergeDeep (.vobj [("a", .vnum (.int 1))])
        [.vobj [("a", .vnum (.int 2))], .vobj [("a", .vnum (.int 3))]] =
      .vobj [("a", .vnum (.int 3))] := by
  refine ⟨?_, fun t s rest => rfl, ?_, ?_⟩
  · intro t
    show mergeOne t (.vobj []) = t
    cases t <;> simp [mergeOne, mergeFields, JsVal.isObject]
  · show mergeOne _ _ = _
    simp [mergeOne, mergeFields, JsVal.isObject, JsVal.objGet, JsVal.objSet, JsVal.truthy]
  · show mergeOne (mergeOne _ _) _ = _
    simp [mergeOne, mergeFields, JsVal.isObject, JsVal.objGet, JsVal.objSet, JsVal.truthy]

/-- Claim C7: `equalUrl` is total (the embedding of "never throws": the
one catch block in the module), returns `false` whenever an input fails to
parse as a URL (the `URI` constructor throws on `null`, `undefined`,
numbers, booleans, arrays, dates, and objects without a truthy
`hostname`/`path`/`pathname` property), compares the parses with at most
one trailing slash stripped from each path, and decides the spec's two
examples. -/
theorem equalUrl_props :
    (∀ a b : JsVal, (uriOfInput a = none ∨ uriOfInput b = none) → equalUrl a b = false) ∧
    (∀ a b : String, equalUrl (.vstr a) (.vstr b) =
      (stripTrailingSlash (parseUri a)).equalsU (stripTrailingSlash (parseUri b))) ∧
    equalUrl (.vstr "https://ex.com/a/") (.vstr "https://ex.com/a") = true ∧
    equalUrl (.vstr "https://ex.com/a") (.vstr "https://ex.com/b") = false := by
  refine ⟨?_, fun a b => rfl, by decide, by decide⟩
  intro a b h
  rcases h with h | h
  · rw [equalUrl, h]
  · rw [equalUrl, h]
    cases uriOfInput a <;> rfl

/-- Witness for C7: a `null` input, an empty object, an empty array and a
date all fail to parse, and `equalUrl` returns `false` on each of them. -/
theorem equalUrl_props_witness :
    uriOfInput .vnull = none ∧ equalUrl .vnull (.vstr "https://ex.com") = false ∧
    uriOfInput (.vobj []) = none ∧ equalUrl (.vobj []) (.vobj []) = false ∧
    uriOfInput (.varr []) = none ∧ equalUrl (.varr []) (.varr []) = false ∧
    uriOfInput (.vdate "2020-01-01T00:00:00.000Z") = none ∧
    equalUrl (.vdate "2020-01-01T00:00:00.000Z") (.vstr "/") = false :=
  ⟨rfl, equalUrl_props.1 .vnull (.vstr "https://ex.com") (Or.inl rfl),
   rfl, equalUrl_props.1 (.vobj []) (.vobj []) (Or.inl rfl),
   rfl, equalUrl_props.1 (.varr []) (.varr []) (Or.inl rfl),
   rfl, equalUrl_props.1 (.vdate "2020-01-01T00:00:00.000Z") (.vstr "/") (Or.inl rfl)⟩

/-- Claim C1 (amended): for every relative `href` that is neither a GDAL
VFS path nor `/vsicurl/`-prefixed, and every non-empty `baseUrl` whose path
ends neither in `/` nor in `.json`, `normalizeUri(href, baseUrl)` resolves
`href` against `baseUrl` with a trailing `/` appended to `baseUrl`'s path
first, so a final base path segment containing a dot is treated as a
directory. -/
theorem normalizeUri_base_as_directory (href base : String)
    (hrel : (parseUri href).isRelative = true)
    (hnv : Str.starts href.data "/vsicurl/".data = false)
    (hng : isGdalVfsUri href = false)
    (hb : base ≠ "")
    (hsl : Str.ends (parseUri base).path.data "/".data = false)
    (hjs : Str.ends (parseUri base).path.data ".json".data = false) :
    normalizeUri href (some base) false =
      (((parseUri href).absoluteTo
        { parseUri base with path := (parseUri base).path ++ "/" }).normalize).toString := by
  rw [normalizeUri, normalizeUriU, stripVsicurl, if_neg (by simp [hnv])]
  rw [normalizeUriCore]
  simp [hrel, hng, hsl, hjs, hb]

/-- Counterexample for C1 as frozen: GDAL VFS hrefs and `/vsicurl/`-prefixed
hrefs are relative (no hostname), and with a base whose path ends neither in
`/` nor `.json` the claim predicts resolution against the slash-appended
base — but `normalizeUri` leaves the GDAL path unresolved and strips/
re-parses the `vsicurl` one, so both disagree with the prediction. -/
theorem normalizeUri_base_as_directory_cex :
    (parseUri "/vsizip/a.zip").isRelative = true ∧
    Str.ends (parseUri "https://ex.com/api/v1.0").path.data "/".data = false ∧
    Str.ends (parseUri "https://ex.com/api/v1.0").path.data ".json".data = false ∧
    normalizeUri "/vsizip/a.zip" (some "https://ex.com/api/v1.0") false ≠
      (((parseUri "/vsizip/a.zip").absoluteTo
        { parseUri "https://ex.com/api/v1.0" with
          path := (parseUri "https://ex.com/api/v1.0").path ++ "/" }).normalize).toString ∧
    (parseUri "/vsicurl/https://x.com/a.tif").isRelative = true ∧
    normalizeUri "/vsicurl/https://x.com/a.tif" (some "https://ex.com/api/v1.0") false ≠
      (((parseUri "/vsicurl/https://x.com/a.tif").absoluteTo
        { parseUri "https://ex.com/api/v1.0" with
          path := (parseUri "https://ex.com/api/v1.0").path ++ "/" }).normalize).toString := by
  refine ⟨by decide, by decide, by decide, by decide, by decide, by decide⟩

/-- Witness for C1 at the spec's example: all hypotheses hold for
`href = "b.json"`, `baseUrl = "https://ex.com/api/v1.0"`, and the result is
`https://ex.com/api/v1.0/b.json` (the base's `v1.0` segment kept as a
directory). -/
theorem normalizeUri_base_as_directory_witness :
    (parseUri "b.json").isRelative = true ∧
    Str.starts "b.json".data "/vsicurl/".data = false ∧
    isGdalVfsUri "b.json" = false ∧
    "https://ex.com/api/v1.0" ≠ "" ∧
    Str.ends (parseUri "https://ex.com/api/v1.0").path.data "/".data = false ∧
    Str.ends (parseUri "https://ex.com/api/v1.0").path.data ".json".data = false ∧
    normalizeUri "b.json" (some "https://ex.com/api/v1.0") false =
      "https://ex.com/api/v1.0/b.json" := by
  refine ⟨by decide, by decide, by decide, by decide, by decide, by decide, ?_⟩
  exact (normalizeUri_base_as_directory "b.json" "https://ex.com/api/v1.0"
    (by decide) (by decide) (by decide) (by decide) (by decide) (by decide)).trans (by decide)

theorem find?_map_setter_self {β : Type} :
    ∀ (f : List (String × β)) (k : String) (v : β),
      (f.any fun p => decide (p.1 = k)) = true →
      List.find? (fun p => decide (p.1 = k)) (f.map fun p => if p.1 = k then (k, v) else p) =
        some (k, v)
  | [], k, v, h => by simp at h
  | x :: rest, k, v, h => by
    by_cases hx : x.1 = k
    · simp [List.find?, hx]
    · have h' : (rest.any fun p => decide (p.1 = k)) = true := by
        simp only [List.any_cons, Bool.or_eq_true, decide_eq_true_eq] at h
        rcases h with h | h
        · exact absurd h hx
        · exact h
      simpa [List.find?, hx] using find?_map_setter_self rest k v h'

theorem find?_append_single_self {β : Type} :
    ∀ (f : List (String × β)) (k : String) (v : β),
      (f.any fun p => decide (p.1 = k)) = false →
      List.find? (fun p => decide (p.1 = k)) (f ++ [(k, v)]) = some (k, v)
  | [], k, v, _ => by simp [List.find?]
  | x :: rest, k, v, h => by
    have h' : x.1 ≠ k ∧ (rest.any fun p => decide (p.1 = k)) = false := by
      simpa [List.any_cons, not_or] using h
    simpa [List.find?, h'.1] using find?_append_single_self rest k v h'.2

theorem objGet_objSet_self (f : List (String × JsVal)) (k : String) (v : JsVal) :
    JsVal.objGet (JsVal.objSet (.vobj f) k v) k = v := by
  rw [JsVal.objSet]
  split
  · next h => rw [JsVal.objGet, find?_map_setter_self f k v h]; rfl
  · next h =>
    rw [JsVal.objGet, find?_append_single_self f k v (by rwa [Bool.not_eq_true] at h)]
    rfl

theorem find?_map_setter_other {β : Type} :
    ∀ (f : List (String × β)) (k' k : String) (v : β), k' ≠ k →
      List.find? (fun p => decide (p.1 = k)) (f.map fun p => if p.1 = k' then (k', v) else p) =
        List.find? (fun p => decide (p.1 = k)) f
  | [], _, _, _, _ => rfl
  | x :: rest, k', k, v, h => by
    by_cases hx : x.1 = k'
    · have hxk : ¬ x.1 = k := fun hc => h (hx ▸ hc)
      simpa [List.find?, hx, h, hxk] using find?_map_setter_other rest k' k v h
    · by_cases hk : x.1 = k
      · simp [List.find?, hx, hk, Ne.symm h]
      · simpa [List.find?, hx, hk] using find?_map_setter_other rest k' k v h

theorem find?_append_single_other {β : Type} :
    ∀ (f : List (String × β)) (k' k : String) (v : β), k' ≠ k →
      List.find? (fun p => decide (p.1 = k)) (f ++ [(k', v)]) =
        List.find? (fun p => decide (p.1 = k)) f
  | [], k', k, v, h => by simp [List.find?, h]
  | x :: rest, k', k, v, h => by
    by_cases hk : x.1 = k
    · simp [List.find?, hk]
    · simpa [List.find?, hk] using find?_append_single_other rest k' k v h

theorem objGet_objSet_other (f : List (String × JsVal)) (k' k : String) (v : JsVal)
    (h : k' ≠ k) :
    JsVal.objGet (JsVal.objSet (.vobj f) k' v) k = JsVal.objGet (.vobj f) k := by
  rw [JsVal.objSet]
  split
  · rw [JsVal.objGet, JsVal.objGet, find?_map_setter_other f k' k v h]
  · rw [JsVal.objGet, JsVal.objGet, find?_append_single_other f k' k v h]

theorem objSet_is_vobj (f : List (String × JsVal)) (k : String) (v : JsVal) :
    ∃ f', JsVal.objSet (.vobj f) k v = .vobj f' := by
  rw [JsVal.objSet]
  split
  · exact ⟨_, rfl⟩
  · exact ⟨_, rfl⟩

/-- One step of the `mergeDeep` loop keeps an object target an object and
leaves every key other than the processed one unread and unwritten. -/
theorem mergeFields_step (tf : List (String × JsVal)) (k₀ : String) (v₀ : JsVal) :
    ∃ f', (if v₀.isObject then
             (let t1 := if ((JsVal.vobj tf).objGet k₀).truthy then JsVal.vobj tf
                        else (JsVal.vobj tf).objSet k₀ (.vobj []);
              t1.objSet k₀ (mergeOne (t1.objGet k₀) v₀))
           else (JsVal.vobj tf).objSet k₀ v₀) = .vobj f' ∧
      ∀ k, k₀ ≠ k → JsVal.objGet (.vobj f') k = JsVal.objGet (.vobj tf) k := by
  split
  · set t1 := if ((JsVal.vobj tf).objGet k₀).truthy then JsVal.vobj tf
              else (JsVal.vobj tf).objSet k₀ (.vobj []) with ht1
    have h1 : ∃ g, t1 = .vobj g ∧ ∀ k, k₀ ≠ k → JsVal.objGet (.vobj g) k = JsVal.objGet (.vobj tf) k := by
      rw [ht1]
      split
      · exact ⟨tf, rfl, fun _ _ => rfl⟩
      · obtain ⟨g, hg⟩ := objSet_is_vobj tf k₀ (.vobj [])
        exact ⟨g, hg, fun k hk => by rw [← hg, objGet_objSet_other _ _ _ _ hk]⟩
    obtain ⟨g, hg, hgk⟩ := h1
    rw [hg]
    obtain ⟨f', hf'⟩ := objSet_is_vobj g k₀ (mergeOne ((JsVal.vobj g).objGet k₀) v₀)
    refine ⟨f', hf', fun k hk => ?_⟩
    rw [← hf', objGet_objSet_other _ _ _ _ hk]
    exact hgk k hk
  · obtain ⟨f', hf'⟩ := objSet_is_vobj tf k₀ v₀
    refine ⟨f', hf', fun k hk => ?_⟩
    rw [← hf', objGet_objSet_other _ _ _ _ hk]

/-- The `mergeDeep` loop leaves keys it never processes untouched. -/
theorem mergeFields_frame :
    ∀ (fs : List (String × JsVal)) (tf : List (String × JsVal)) (k : String),
      (∀ p ∈ fs, p.1 ≠ k) →
      JsVal.objGet (mergeFields (.vobj tf) fs) k = JsVal.objGet (.vobj tf) k
  | [], tf, k, _ => by simp [mergeFields]
  | (k₀, v₀) :: rest, tf, k, h => by
    obtain ⟨f', hf', hk⟩ := mergeFields_step tf k₀ v₀
    have hrec := mergeFields_frame rest f' k (fun p hp => h p (List.mem_cons_of_mem _ hp))
    simp only [mergeFields]
    rw [hf', hrec, hk k (h (k₀, v₀) (List.mem_cons_self _ _))]

/-- The value the `mergeDeep` loop leaves at a key whose source value is an
object: the target value merged (when truthy), else a fresh object merged. -/
theorem mergeFields_key_result :
    ∀ (sf tf : List (String × JsVal)) (k : String) (w : List (String × JsVal)),
      (sf.map Prod.fst).Nodup →
      JsVal.objGet (.vobj sf) k = .vobj w →
      JsVal.objGet (mergeFields (.vobj tf) sf) k =
        (if ((JsVal.vobj tf).objGet k).truthy then
           mergeOne ((JsVal.vobj tf).objGet k) (.vobj w)
         else mergeOne (.vobj []) (.vobj w))
  | [], tf, k, w, _, hsk => by simp [JsVal.objGet, List.find?] at hsk
  | (k₀, v₀) :: rest, tf, k, w, hnd, hsk => by
    by_cases hk : k₀ = k
    · subst hk
      have hv : v₀ = .vobj w := by
        simpa [JsVal.objGet, List.find?] using hsk
      subst hv
      have hnd' : (k₀ :: rest.map Prod.fst).Nodup := by rwa [List.map_cons] at hnd
      have hknotin : ∀ p ∈ rest, p.1 ≠ k₀ := by
        intro p hp hc
        exact (List.nodup_cons.mp hnd').1 (hc ▸ List.mem_map_of_mem Prod.fst hp)
      simp only [mergeFields, JsVal.isObject, if_pos]
      split
      · next htr =>
        obtain ⟨f', hf'⟩ := objSet_is_vobj tf k₀ (mergeOne ((JsVal.vobj tf).objGet k₀) (.vobj w))
        rw [hf', mergeFields_frame rest f' k₀ hknotin, ← hf', objGet_objSet_self]
      · next htr =>
        obtain ⟨g, hg⟩ := objSet_is_vobj tf k₀ (.vobj [])
        rw [hg]
        obtain ⟨f', hf'⟩ := objSet_is_vobj g k₀ (mergeOne ((JsVal.vobj g).objGet k₀) (.vobj w))
        rw [hf', mergeFields_frame rest f' k₀ hknotin, ← hf', objGet_objSet_self, ← hg,
          objGet_objSet_self]
    · have hsk' : JsVal.objGet (.vobj rest) k = .vobj w := by
        simpa [JsVal.objGet, List.find?, hk] using hsk
      have htf : JsVal.objGet (.vobj ((k₀, v₀) :: rest).tail) k = JsVal.objGet (.vobj rest) k := rfl
      obtain ⟨f', hf', hkk⟩ := mergeFields_step tf k₀ v₀
      have hnd' : (k₀ :: rest.map Prod.fst).Nodup := by rwa [List.map_cons] at hnd
      have hrec := mergeFields_key_result rest f' k w (List.nodup_cons.mp hnd').2 hsk'
      simp only [mergeFields]
      rw [hf', hrec, hkk k hk]

theorem qget_qset_self (q : List (String × List (Option String))) (k : String)
    (v : List (Option String)) : qget (qset q k v) k = some v := by
  rw [qset]
  split
  · next h => rw [qget, find?_map_setter_self q k v h]; rfl
  · next h =>
    rw [qget, find?_append_single_self q k v (by rwa [Bool.not_eq_true] at h)]
    rfl

theorem qget_qset_other (q : List (String × List (Option String))) (k' k : String)
    (v : List (Option String)) (h : k' ≠ k) : qget (qset q k' v) k = qget q k := by
  rw [qset]
  split
  · rw [qget, qget, find?_map_setter_other q k' k v h]
  · rw [qget, qget, find?_append_single_other q k' k v h]

theorem find?_filter_out_self {β : Type} :
    ∀ (q : List (String × β)) (k : String),
      List.find? (fun p => decide (p.1 = k)) (q.filter fun p => p.1 != k) = none
  | [], _ => rfl
  | x :: rest, k => by
    rw [List.filter_cons]
    by_cases hx : x.1 = k
    · rw [if_neg (by simp [hx])]
      exact find?_filter_out_self rest k
    · rw [if_pos (by simp [hx]), List.find?_cons_of_neg _ (by simp [hx])]
      exact find?_filter_out_self rest k

theorem find?_filter_out_other {β : Type} :
    ∀ (q : List (String × β)) (k' k : String), k' ≠ k →
      List.find? (fun p => decide (p.1 = k)) (q.filter fun p => p.1 != k') =
        List.find? (fun p => decide (p.1 = k)) q
  | [], _, _, _ => rfl
  | x :: rest, k', k, h => by
    rw [List.filter_cons]
    by_cases hx : x.1 = k'
    · have hxk : ¬ x.1 = k := fun hc => h (hx ▸ hc)
      rw [if_neg (by simp [hx]), List.find?_cons_of_neg _ (by simp [hxk])]
      exact find?_filter_out_other rest k' k h
    · rw [if_pos (by simp [hx])]
      by_cases hk : x.1 = k
      · rw [List.find?_cons_of_pos _ (by simp [hk]), List.find?_cons_of_pos _ (by simp [hk])]
      · rw [List.find?_cons_of_neg _ (by simp [hk]), List.find?_cons_of_neg _ (by simp [hk])]
        exact find?_filter_out_other rest k' k h

theorem qget_qdel_self (q : List (String × List (Option String))) (k : String) :
    qget (qdel q k) k = none := by
  rw [qdel, qget, find?_filter_out_self q k]
  rfl

theorem qget_qdel_other (q : List (String × List (Option String))) (k' k : String)
    (h : k' ≠ k) : qget (qdel q k') k = qget q k := by
  rw [qdel, qget, qget, find?_filter_out_other q k' k h]

/-- Models `applyFilter` only "throws" for a non-removable, non-array `datetime`
value. -/
theorem applyFilter_isSome (u : Uri) (k : String) (v : JsVal)
    (hdt : k = "datetime" → removable v = true ∨ ∃ xs, v = .varr xs) :
    ∃ u', applyFilter u k v = some u' := by
  by_cases hr : removable v = true
  · exact ⟨_, by rw [applyFilter, if_pos hr]⟩
  · rw [applyFilter, if_neg hr]
    by_cases hk : k = "datetime"
    · rcases hdt hk with h | ⟨xs, rfl⟩
      · exact absurd h hr
      · rw [if_pos hk]
        exact ⟨_, rfl⟩
    · rw [if_neg hk]
      by_cases hb : k = "bbox"
      · rw [if_pos hb]
        cases v <;> exact ⟨_, rfl⟩
      · rw [if_neg hb]
        by_cases hc : k = "collections" ∨ k = "ids"
        · rw [if_pos hc]
          cases v <;> exact ⟨_, rfl⟩
        · rw [if_neg hc]
          by_cases hf : k = "filters"
          · rw [if_pos hf]
            exact ⟨_, rfl⟩
          · rw [if_neg hf]
            exact ⟨_, rfl⟩

/-- Models `joinArm` always writes exactly its own key. -/
theorem joinArm_some_setQuery (u : Uri) (key : String) (v : JsVal) :
    ∃ w, joinArm u key v = some (u.setQuery key w) := by
  cases v <;> exact ⟨_, rfl⟩

/-- One loop iteration of `addFiltersToLink` does not touch query keys other
than its own (and, for the delegating `filters` key, the collaborator's
parameter keys). -/
theorem applyFilter_frame (u : Uri) (k' : String) (v : JsVal) (u' : Uri) (k : String)
    (h : applyFilter u k' v = some u') (h1 : k' ≠ k) (h2 : k' ≠ "filters") :
    qget u'.query k = qget u.query k := by
  rw [applyFilter] at h
  by_cases hr : removable v = true
  · rw [if_pos hr] at h
    cases h
    exact qget_qdel_other u.query k' k h1
  · rw [if_neg hr] at h
    by_cases hk : k' = "datetime"
    · rw [if_pos hk] at h
      cases v with
      | varr xs =>
        simp only [datetimeArm] at h
        cases h
        exact qget_qset_other u.query k' k _ h1
      | vnull => exact Option.noConfusion h
      | vundef => exact Option.noConfusion h
      | vbool b => exact Option.noConfusion h
      | vnum n => exact Option.noConfusion h
      | vstr s => exact Option.noConfusion h
      | vdate iso => exact Option.noConfusion h
      | vobj fs => exact Option.noConfusion h
    · rw [if_neg hk] at h
      by_cases hb : k' = "bbox"
      · rw [if_pos hb] at h
        obtain ⟨w, hw⟩ := joinArm_some_setQuery u k' v
        rw [hw] at h
        cases h
        exact qget_qset_other u.query k' k _ h1
      · rw [if_neg hb] at h
        by_cases hc : k' = "collections" ∨ k' = "ids"
        · rw [if_pos hc] at h
          obtain ⟨w, hw⟩ := joinArm_some_setQuery u k' v
          rw [hw] at h
          cases h
          exact qget_qset_other u.query k' k _ h1
        · rw [if_neg hc] at h
          rw [if_neg h2] at h
          cases h
          exact qget_qset_other u.query k' k _ h1

/-- Models `addFiltersToLink`'s loop succeeds whenever every `datetime` value is
removable or an array. -/
theorem applyFilters_isSome :
    ∀ (fs : List (String × JsVal)) (u : Uri),
      (∀ v, ("datetime", v) ∈ fs → removable v = true ∨ ∃ xs, v = .varr xs) →
      ∃ u', applyFilters (some u) fs = some u'
  | [], u, _ => ⟨u, rfl⟩
  | (k₀, v₀) :: rest, u, hdt => by
    obtain ⟨u₁, hu₁⟩ := applyFilter_isSome u k₀ v₀
      (fun hk => hdt v₀ (hk ▸ List.mem_cons_self _ _))
    obtain ⟨u', hu'⟩ := applyFilters_isSome rest u₁
      (fun v hv => hdt v (List.mem_cons_of_mem _ hv))
    exact ⟨u', by rw [applyFilters, hu₁, hu']⟩

/-- The loop leaves query keys untouched that no filter key (and no
delegated parameter) writes. -/
theorem applyFilters_frame :
    ∀ (fs : List (String × JsVal)) (u u' : Uri) (k : String),
      applyFilters (some u) fs = some u' →
      (∀ p ∈ fs, p.1 ≠ k) → (∀ p ∈ fs, p.1 ≠ "filters") →
      qget u'.query k = qget u.query k
  | [], u, u', k, h, _, _ => by cases h; rfl
  | (k₀, v₀) :: rest, u, u', k, h, hk, hf => by
    rw [applyFilters] at h
    cases happ : applyFilter u k₀ v₀ with
    | none => rw [happ] at h; exact absurd h (by simp [applyFilters])
    | some u₁ =>
      rw [happ] at h
      have h1 := applyFilters_frame rest u₁ u' k h
        (fun p hp => hk p (List.mem_cons_of_mem _ hp))
        (fun p hp => hf p (List.mem_cons_of_mem _ hp))
      rw [h1]
      exact applyFilter_frame u k₀ v₀ u₁ k happ
        (hk (k₀, v₀) (List.mem_cons_self _ _)) (hf (k₀, v₀) (List.mem_cons_self _ _))

/-- What the loop leaves at each filter key of a `filters`-free filter map
with distinct keys: removable values remove the parameter; array-valued
`datetime` serializes as the `/`-joined interval; array-valued `bbox`,
`collections` and `ids` serialize comma-joined. -/
theorem applyFilters_key :
    ∀ (fs : List (String × JsVal)) (u u' : Uri) (k : String) (v : JsVal),
      (fs.map Prod.fst).Nodup → (∀ p ∈ fs, p.1 ≠ "filters") →
      applyFilters (some u) fs = some u' → (k, v) ∈ fs →
      (removable v = true → qget u'.query k = none) ∧
      (k = "datetime" → ∀ xs, v = .varr xs → removable v = false →
        qget u'.query k = some [some (formatDatetimeQuery xs)]) ∧
      ((k = "bbox" ∨ k = "collections" ∨ k = "ids") → ∀ xs, v = .varr xs →
        removable v = false → qget u'.query k = some [some (jsJoinComma xs)])
  | [], _, _, _, _, _, _, _, hmem => absurd hmem (List.not_mem_nil _)
  | (k₀, v₀) :: rest, u, u', k, v, hnd, hnf, h, hmem => by
    rw [applyFilters] at h
    cases happ : applyFilter u k₀ v₀ with
    | none => rw [happ] at h; exact absurd h (by simp [applyFilters])
    | some u₁ =>
      rw [happ] at h
      rcases List.mem_cons.mp hmem with heq | hmemr
      · have hkk : k₀ = k := (Prod.mk.injEq _ _ _ _ |>.mp heq.symm).1
        have hvv : v₀ = v := (Prod.mk.injEq _ _ _ _ |>.mp heq.symm).2
        subst hkk hvv
        have hnd' : (k₀ :: rest.map Prod.fst).Nodup := by rwa [List.map_cons] at hnd
        have hrest : ∀ p ∈ rest, p.1 ≠ k₀ := by
          intro p hp hc
          exact (List.nodup_cons.mp hnd').1 (hc ▸ List.mem_map_of_mem Prod.fst hp)
        have hframe : qget u'.query k₀ = qget u₁.query k₀ :=
          applyFilters_frame rest u₁ u' k₀ h hrest
            (fun p hp => hnf p (List.mem_cons_of_mem _ hp))
        rw [applyFilter] at happ
        refine ⟨?_, ?_, ?_⟩
        · intro hr
          rw [if_pos hr] at happ
          cases happ
          rw [hframe]
          exact qget_qdel_self u.query k₀
        · intro hdt xs hxs hr
          subst hxs
          rw [if_neg (by simp [hr]), if_pos hdt] at happ
          simp only [datetimeArm] at happ
          cases happ
          rw [hframe]
          exact qget_qset_self u.query k₀ _
        · intro hkey xs hxs hr
          subst hxs
          have hne : ¬ k₀ = "datetime" := by
            rcases hkey with h' | h' | h' <;> subst h' <;> decide
          rw [if_neg (by simp [hr]), if_neg hne] at happ
          rcases hkey with h' | h' | h'
          · rw [if_pos h'] at happ
            simp only [joinArm] at happ
            cases happ
            rw [hframe]
            exact qget_qset_self u.query k₀ _
          · rw [if_neg (by subst h'; decide), if_pos (Or.inl h')] at happ
            simp only [joinArm] at happ
            cases happ
            rw [hframe]
            exact qget_qset_self u.query k₀ _
          · rw [if_neg (by subst h'; decide), if_pos (Or.inr h')] at happ
            simp only [joinArm] at happ
            cases happ
            rw [hframe]
            exact qget_qset_self u.query k₀ _
      · have hnd' : (k₀ :: rest.map Prod.fst).Nodup := by rwa [List.map_cons] at hnd
        exact applyFilters_key rest u₁ u' k v (List.nodup_cons.mp hnd').2
          (fun p hp => hnf p (List.mem_cons_of_mem _ hp)) h hmemr

theorem forall_mem_single_ne {β : Type} (a : String × β) (k : String) (h1 : a.1 ≠ k) :
    ∀ p ∈ [a], p.1 ≠ k := by
  intro p hp
  rw [List.mem_singleton] at hp
  subst hp
  exact h1

theorem forall_mem_pair_ne {β : Type} (a b : String × β) (k : String) (h1 : a.1 ≠ k)
    (h2 : b.1 ≠ k) : ∀ p ∈ [a, b], p.1 ≠ k := by
  intro p hp
  rcases List.mem_cons.mp hp with rfl | hp
  · exact h1
  · rw [List.mem_singleton] at hp
    subst hp
    exact h2

/-- Claim C3 (amended): for every link with a string `href` and every
filter map with distinct keys that does not contain the delegating
`filters` key and whose `datetime` value (when present and not removable)
is an array, `addFiltersToLink` removes every filter key whose value is
null, a non-finite number, an empty string or an empty collection/object
from the result's query string; it serializes a non-removable array-valued
`datetime` as the `/`-joined interval (`formatDatetimeQuery`: missing
bounds become `..`, dates their UTC ISO string), and non-removable
array-valued `bbox`/`collections`/`ids` comma-joined. -/
theorem addFiltersToLink_serialization (link : JsVal) (s : String)
    (fs : List (String × JsVal))
    (hhref : link.objGet "href" = .vstr s)
    (hnd : (fs.map Prod.fst).Nodup)
    (hnf : ∀ p ∈ fs, p.1 ≠ "filters")
    (hdt : ∀ v, ("datetime", v) ∈ fs → removable v = true ∨ ∃ xs, v = .varr xs) :
    ∃ u', addFiltersUri s fs = some u' ∧
      addFiltersToLink link fs = some (link.objSet "href" (.vstr u'.toString)) ∧
      ∀ p ∈ fs,
        (removable p.2 = true → qget u'.query p.1 = none) ∧
        (p.1 = "datetime" → ∀ xs, p.2 = .varr xs → removable p.2 = false →
          qget u'.query p.1 = some [some (formatDatetimeQuery xs)]) ∧
        ((p.1 = "bbox" ∨ p.1 = "collections" ∨ p.1 = "ids") → ∀ xs, p.2 = .varr xs →
          removable p.2 = false → qget u'.query p.1 = some [some (jsJoinComma xs)]) := by
  obtain ⟨u', hu'⟩ := applyFilters_isSome fs (parseUri s) hdt
  refine ⟨u', hu', ?_, ?_⟩
  · rw [addFiltersToLink.eq_def, hhref]
    show Option.map (fun u => link.objSet "href" (JsVal.vstr u.toString))
      (applyFilters (some (parseUri s)) fs) = _
    rw [hu']
    rfl
  · intro p hp
    exact applyFilters_key fs (parseUri s) u' p.1 p.2 hnd hnf hu' hp

/-- Counterexample for C3 as frozen (against the spec-modelled
`Queryable.formatText` collaborator): with the filter map
`{filter: null, filters: {x: 1}}` the removable `filter` key is first
removed but then re-set by the collaborator's `filter` parameter, so it is
present in the result — and a non-array `datetime` value makes
`addFiltersToLink` throw (`none`) instead of producing a link at all. -/
theorem addFiltersToLink_serialization_cex :
    removable .vnull = true ∧
    (addFiltersUri "https://ex.com/"
        [("filter", .vnull), ("filters", .vobj [("x", .vnum (.int 1))])]).map
      (fun u => qget u.query "filter") = some (some [some "[object Object]"]) ∧
    addFiltersToLink (.vobj [("href", .vstr "https://ex.com/")])
      [("datetime", .vstr "2020")] = none := by
  refine ⟨by decide, ?_, ?_⟩
  · simp [addFiltersUri, applyFilters, applyFilter, removable, formatText, setQueryVal,
      jsToString, Uri.setQuery, Uri.removeQuery, qset, qdel, qget, parseUri, parseQueryStr,
      Str.splitFirst, Str.splitAll, Str.starts, whatwgFix, whatwgFixScheme, matchWebScheme,
      webSchemes, munchChar, munchAnySlash, Str.lower, parseAuthoritySplit, qAppendParsed,
      JsVal.size, List.find?]
  · simp [addFiltersToLink, addFiltersUri, applyFilters, applyFilter, removable,
      datetimeArm, JsVal.objGet, List.find?]

/-- Witness for C3 at the spec's example
`addFiltersToLink({href: "https://ex.com?x=1", rel: "search"},
{bbox: [1,2,3,4], limit: null})`: the query gains `bbox=1,2,3,4`, the
`limit` parameter is absent, and `rel` is carried over. -/
theorem addFiltersToLink_serialization_witness :
    JsVal.objGet (.vobj [("href", .vstr "https://ex.com?x=1"), ("rel", .vstr "search")]) "href" =
      .vstr "https://ex.com?x=1" ∧
    ((([("bbox", JsVal.varr [.vnum (.int 1), .vnum (.int 2), .vnum (.int 3), .vnum (.int 4)]),
        ("limit", JsVal.vnull)]).map Prod.fst).Nodup) ∧
    addFiltersToLink (.vobj [("href", .vstr "https://ex.com?x=1"), ("rel", .vstr "search")])
        [("bbox", .varr [.vnum (.int 1), .vnum (.int 2), .vnum (.int 3), .vnum (.int 4)]),
         ("limit", .vnull)] =
      some (.vobj [("href", .vstr "https://ex.com/?x=1&bbox=1,2,3,4"), ("rel", .vstr "search")]) := by
  refine ⟨rfl, by decide, ?_⟩
  obtain ⟨u', hu', hlink, hkeys⟩ := addFiltersToLink_serialization
    (.vobj [("href", .vstr "https://ex.com?x=1"), ("rel", .vstr "search")])
    "https://ex.com?x=1"
    [("bbox", .varr [.vnum (.int 1), .vnum (.int 2), .vnum (.int 3), .vnum (.int 4)]),
     ("limit", .vnull)]
    rfl (by decide) (forall_mem_pair_ne _ _ _ (by decide) (by decide))
    (by intro v hv; simp at hv)
  have hval : addFiltersUri "https://ex.com?x=1"
      [("bbox", .varr [.vnum (.int 1), .vnum (.int 2), .vnum (.int 3), .vnum (.int 4)]),
       ("limit", .vnull)] =
      some { scheme := some "https", authority := some "ex.com", path := "",
             query := [("x", [some "1"]), ("bbox", [some "1,2,3,4"])],
             fragment := none, urn := false } := by
    simp [addFiltersUri, applyFilters, applyFilter, removable, joinArm, jsJoinComma, jsJoinSep,
      jsJoinElem, jsToString, JsNumber.toStr, Uri.setQuery, Uri.removeQuery, qset, qdel,
      parseUri, parseQueryStr, Str.splitFirst, Str.splitAll, Str.starts, whatwgFix,
      whatwgFixScheme, matchWebScheme, webSchemes, munchChar, munchAnySlash, Str.lower,
      parseAuthoritySplit, qAppendParsed, protocolShaped, protocolChar]
    decide
  rw [hval] at hu'
  obtain rfl : u' = _ := by injection hu' with h; exact h.symm
  rw [hlink]
  rfl

/-- Claim C6 (amended): `addFiltersToLink` builds a new link value (the
embedding is pure, matching the source's `Object.assign({}, link, ...)`),
carries over every property other than `href` unchanged, and — for filter
maps that contain no delegating `filters` key (whose collaborator-produced
parameters overwrite existing ones) and whose `datetime` value (when
present and non-removable) is an array — leaves every query parameter
whose key is not a filter key untouched. -/
theorem addFiltersToLink_frame_preservation (link : JsVal) (s : String)
    (fs : List (String × JsVal))
    (hhref : link.objGet "href" = .vstr s)
    (hnf : ∀ p ∈ fs, p.1 ≠ "filters")
    (hdt : ∀ v, ("datetime", v) ∈ fs → removable v = true ∨ ∃ xs, v = .varr xs) :
    ∃ link' u', addFiltersToLink link fs = some link' ∧
      addFiltersUri s fs = some u' ∧
      link' = link.objSet "href" (.vstr u'.toString) ∧
      (∀ k, k ≠ "href" → link'.objGet k = link.objGet k) ∧
      (∀ k, (∀ p ∈ fs, p.1 ≠ k) → qget u'.query k = qget (parseUri s).query k) := by
  obtain ⟨u', hu'⟩ := applyFilters_isSome fs (parseUri s) hdt
  have hlink : addFiltersToLink link fs = some (link.objSet "href" (.vstr u'.toString)) := by
    rw [addFiltersToLink.eq_def, hhref]
    show Option.map (fun u => link.objSet "href" (JsVal.vstr u.toString))
      (applyFilters (some (parseUri s)) fs) = _
    rw [hu']
    rfl
  refine ⟨_, u', hlink, hu', rfl, ?_, ?_⟩
  · intro k hk
    cases link with
    | vobj f => exact objGet_objSet_other f "href" k _ (Ne.symm hk)
    | vnull => exact absurd hhref (by simp [JsVal.objGet])
    | vundef => exact absurd hhref (by simp [JsVal.objGet])
    | vbool b => exact absurd hhref (by simp [JsVal.objGet])
    | vnum n => exact absurd hhref (by simp [JsVal.objGet])
    | vstr t => exact absurd hhref (by simp [JsVal.objGet])
    | vdate iso => exact absurd hhref (by simp [JsVal.objGet])
    | varr xs => exact absurd hhref (by simp [JsVal.objGet])
  · intro k hk
    exact applyFilters_frame fs (parseUri s) u' k hu' hk hnf

/-- Counterexample for C6 as frozen (against the spec-modelled
`Queryable.formatText` collaborator): a `filters`-bearing filter map
overwrites the pre-existing `filter` query parameter even though `filter`
is not a key of the filter map; and a non-array `datetime` value makes
`addFiltersToLink` throw (`none`), so no property is carried over at all. -/
theorem addFiltersToLink_frame_preservation_cex :
    (∀ p ∈ [("filters", JsVal.vobj [("x", JsVal.vnum (.int 1))])], p.1 ≠ "filter") ∧
    qget (parseUri "https://ex.com/?filter=old&a=1").query "filter" = some [some "old"] ∧
    (addFiltersUri "https://ex.com/?filter=old&a=1"
        [("filters", .vobj [("x", .vnum (.int 1))])]).map
      (fun u => qget u.query "filter") = some (some [some "[object Object]"]) ∧
    addFiltersToLink (.vobj [("href", .vstr "https://ex.com/"), ("rel", .vstr "search")])
      [("datetime", .vnum (.int 5))] = none := by
  refine ⟨forall_mem_single_ne _ _ (by decide), by decide, ?_, ?_⟩
  · simp [addFiltersUri, applyFilters, applyFilter, removable, formatText, setQueryVal,
      jsToString, Uri.setQuery, qset, qget, parseUri, parseQueryStr, Str.splitFirst,
      Str.splitAll, Str.starts, whatwgFix, whatwgFixScheme, matchWebScheme, webSchemes,
      munchChar, munchAnySlash, Str.lower, parseAuthoritySplit, qAppendParsed, JsVal.size,
      List.find?]
  · simp [addFiltersToLink, addFiltersUri, applyFilters, applyFilter, removable,
      datetimeArm, JsNumber.finite, JsVal.objGet, List.find?]

/-- Witness for C6: on `{href: "https://ex.com?a=1", rel: "items",
title: "T"}` with filter `{limit: 10}`, the `rel` and `title` properties
are carried over and the unrelated `a` parameter keeps its value. -/
theorem addFiltersToLink_frame_preservation_witness :
    JsVal.objGet (.vobj [("href", .vstr "https://ex.com?a=1"), ("rel", .vstr "items"),
        ("title", .vstr "T")]) "href" = .vstr "https://ex.com?a=1" ∧
    (∀ p ∈ [("limit", JsVal.vnum (.int 10))], p.1 ≠ "filters") ∧
    addFiltersToLink (.vobj [("href", .vstr "https://ex.com?a=1"), ("rel", .vstr "items"),
        ("title", .vstr "T")]) [("limit", .vnum (.int 10))] =
      some (.vobj [("href", .vstr "https://ex.com/?a=1&limit=10"), ("rel", .vstr "items"),
        ("title", .vstr "T")]) ∧
    JsVal.objGet (.vobj [("href", .vstr "https://ex.com/?a=1&limit=10"), ("rel", .vstr "items"),
        ("title", .vstr "T")]) "title" = .vstr "T" := by
  refine ⟨rfl, forall_mem_single_ne _ _ (by decide), ?_, rfl⟩
  obtain ⟨link', u', hlink, hu', hset, hcarry, hframe⟩ := addFiltersToLink_frame_preservation
    (.vobj [("href", .vstr "https://ex.com?a=1"), ("rel", .vstr "items"), ("title", .vstr "T")])
    "https://ex.com?a=1" [("limit", .vnum (.int 10))]
    rfl (forall_mem_single_ne _ _ (by decide)) (by intro v hv; simp at hv)
  have hval : addFiltersUri "https://ex.com?a=1" [("limit", .vnum (.int 10))] =
      some { scheme := some "https", authority := some "ex.com", path := "",
             query := [("a", [some "1"]), ("limit", [some "10"])],
             fragment := none, urn := false } := by
    simp [addFiltersUri, applyFilters, applyFilter, removable, setQueryVal, jsToString,
      JsNumber.toStr, JsNumber.finite, Uri.setQuery, qset, parseUri, parseQueryStr,
      Str.splitFirst, Str.splitAll, Str.starts, whatwgFix, whatwgFixScheme, matchWebScheme,
      webSchemes, munchChar, munchAnySlash, Str.lower, parseAuthoritySplit, qAppendParsed]
    decide
  rw [hval] at hu'
  obtain rfl : u' = _ := by injection hu' with h; exact h.symm
  rw [hlink, hset]
  rfl

/-- Claim C10: when `mergeDeep`'s target holds a truthy non-object value at
a key where the source holds a plain object, the target's value is kept and
the source's object silently discarded; when the target's value there is
falsy, it is replaced by a fresh object merged from the source's object. -/
theorem mergeDeep_scalar_object_conflict (tf sf : List (String × JsVal)) (k : String)
    (w : List (String × JsVal))
    (hnd : (sf.map Prod.fst).Nodup)
    (hsk : JsVal.objGet (.vobj sf) k = .vobj w) :
    (((JsVal.vobj tf).objGet k).truthy = true →
      ((JsVal.vobj tf).objGet k).isObject = false →
      JsVal.objGet (mergeDeep (.vobj tf) [.vobj sf]) k = (JsVal.vobj tf).objGet k) ∧
    (((JsVal.vobj tf).objGet k).truthy = false →
      JsVal.objGet (mergeDeep (.vobj tf) [.vobj sf]) k = mergeOne (.vobj []) (.vobj w)) := by
  have hmd : mergeDeep (.vobj tf) [.vobj sf] = mergeFields (.vobj tf) sf := by
    show mergeOne (.vobj tf) (.vobj sf) = _
    simp [mergeOne, JsVal.isObject]
  have hkey := mergeFields_key_result sf tf k w hnd hsk
  constructor
  · intro htr hobj
    rw [hmd, hkey, if_pos htr]
    rw [mergeOne]
    simp [hobj]
  · intro htr
    rw [hmd, hkey, if_neg (by simp [htr])]

/-- Witness for C10: target `{a: 5}` (truthy scalar) keeps `5` against
source `{a: {b: 1}}`; target `{a: 0}` (falsy) is replaced by the merged
fresh object `{b: 1}`. -/
theorem mergeDeep_scalar_object_conflict_witness :
    ((JsVal.vobj [("a", .vnum (.int 5))]).objGet "a").truthy = true ∧
    ((JsVal.vobj [("a", .vnum (.int 5))]).objGet "a").isObject = false ∧
    JsVal.objGet (mergeDeep (.vobj [("a", .vnum (.int 5))])
      [.vobj [("a", .vobj [("b", .vnum (.int 1))])]]) "a" = .vnum (.int 5) ∧
    ((JsVal.vobj [("a", .vnum (.int 0))]).objGet "a").truthy = false ∧
    JsVal.objGet (mergeDeep (.vobj [("a", .vnum (.int 0))])
      [.vobj [("a", .vobj [("b", .vnum (.int 1))])]]) "a" =
      mergeOne (.vobj []) (.vobj [("b", .vnum (.int 1))]) := by
  refine ⟨by decide, by decide, ?_, by decide, ?_⟩
  · exact ((mergeDeep_scalar_object_conflict [("a", .vnum (.int 5))]
      [("a", .vobj [("b", .vnum (.int 1))])] "a" [("b", .vnum (.int 1))]
      (by simp) (by simp [JsVal.objGet, List.find?])).1 (by decide) (by decide)).trans
      (by simp [JsVal.objGet, List.find?])
  · exact (mergeDeep_scalar_object_conflict [("a", .vnum (.int 0))]
      [("a", .vobj [("b", .vnum (.int 1))])] "a" [("b", .vnum (.int 1))]
      (by simp) (by simp [JsVal.objGet, List.find?])).2 (by decide)

end StacBrowser
